import Mathlib

/-!
# Verification of `dnnbrain/utils/util.py`

A shallow embedding of the two utility functions of the repository,
`get_frame_time_info` and `gen_dmask`, together with theorems checking the
natural-language specification against them.

Modelling decisions:
* Python floats are modelled as rationals (`ℚ`), so the arithmetic identities
  hold exactly (the spec allows floating-point tolerance, which exact rational
  arithmetic satisfies).
* The `interval` argument may be an `int` or a `float` at the call site
  (Python is dynamically typed and the code checks `isinstance(interval, int)`),
  so it is modelled by the sum type `PyNum`.
* Reading the video file is an opaque capability: the embedding takes the
  video's frame rate `fps` and frame count `n_frame` as inputs.
* Python exceptions are modelled by `Except PyError`; the `Mask` collaborator
  is opaque, so `gen_dmask` is modelled by the trace of mutating operations
  (`set`/`load` calls) it applies to the freshly created mask object, paired
  with the error (if any) that aborts the call.
-/

/-- A Python number argument: either an `int` or a `float`.
`isinstance(x, int)` is true exactly for the `int` constructor. -/
inductive PyNum where
  | int (z : ℤ)
  | float (q : ℚ)
deriving DecidableEq

/-- The Python exceptions the two functions can raise. -/
inductive PyError where
  | assertionError (msg : String)
  | valueError (msg : String)
  | zeroDivisionError
  | indexError
deriving DecidableEq

/-- The check `isinstance(interval, int) and interval > 0`
(line 27 of `util.py`). -/
def intervalOK : PyNum → Bool
  | .int z => decide (0 < z)
  | .float _ => false

/-- `onsets.append(onsets[-1] + d)` iterated over a list of durations:
each output element is the running sum of `cur` and the durations so far
(lines 44-46 of `util.py`). -/
def accumOnsets (cur : ℚ) : List ℚ → List ℚ
  | [] => []
  | d :: ds => (cur + d) :: accumOnsets (cur + d) ds

/-- `durations[0] = durations[0] + before_vid` followed by
`durations[-1] = durations[-1] + after_vid` on a (nonempty) list
(lines 40-41 of `util.py`); Python's index `-1` is `length - 1`. -/
def adjustEnds (before_vid after_vid : ℚ) (l : List ℚ) : List ℚ :=
  let l1 := l.set 0 (l.getD 0 0 + before_vid)
  l1.set (l1.length - 1) (l1.getD (l1.length - 1) 0 + after_vid)

/-- The length of `range(1, n_frame + 1, iv)` for a positive step `iv`:
zero when `n_frame < 1`, and the ceiling of `n_frame / iv` otherwise. -/
def frameCount (n_frame : ℤ) (iv : ℕ) : ℕ := (n_frame.toNat + iv - 1) / iv

/-- Shallow embedding of `get_frame_time_info` (lines 7-48 of `util.py`).
The video file is replaced by its metadata `fps` (`CAP_PROP_FPS`) and
`n_frame` (`CAP_PROP_FRAME_COUNT` as an `int`).  The steps in order:
the `assert` on `interval`; `frame_nums = list(range(1, n_frame+1, interval))`;
`duration = 1 / fps * interval` (a `ZeroDivisionError` when `fps = 0`);
`durations = [duration] * len(frame_nums)` with both end adjustments
(an `IndexError` when the list is empty); and the onset accumulation. -/
def get_frame_time_info (fps : ℚ) (n_frame : ℤ) (original_onset : ℚ)
    (interval : PyNum) (before_vid after_vid : ℚ) :
    Except PyError (List ℕ × List ℚ × List ℚ) :=
  match interval with
  | .float _ => .error (.assertionError "Parameter 'interval' must be a positive integer!")
  | .int z =>
    if 0 < z then
      let iv : ℕ := z.toNat
      let frame_nums : List ℕ := List.range' 1 (frameCount n_frame iv) iv
      if fps = 0 then .error .zeroDivisionError
      else
        let duration : ℚ := 1 / fps * iv
        let durations : List ℚ := List.replicate frame_nums.length duration
        if durations.isEmpty then .error .indexError
        else
          let ds := adjustEnds before_vid after_vid durations
          .ok (frame_nums, original_onset :: accumOnsets original_onset ds.dropLast, ds)
    else .error (.assertionError "Parameter 'interval' must be a positive integer!")

/-- One mutating operation applied to the opaque `Mask` collaborator. -/
inductive MaskOp where
  | set (layer : String) (channels : Option (List ℤ))
  | load (path : String)
deriving DecidableEq

/-- Shallow embedding of `gen_dmask` (lines 51-98 of `util.py`), as the pair
(trace of `Mask` mutations applied, error aborting the call, if any).
Every `raise`/failed `assert` in the source occurs before any `dmask.set` or
`dmask.load` call of its branch, so an aborting run applies no mutation. -/
def gen_dmask_run (layers : Option (List String)) (channels : Option (List ℤ))
    (dmask_file : Option String) : List MaskOp × Option PyError :=
  if !(xor layers.isNone dmask_file.isNone) then
    ([], some (.assertionError "Use one and only one of the 'layers' and 'dmask_file'!"))
  else
    match layers with
    | none =>
      if channels.isSome then
        ([], some (.assertionError "'channels' can't be used without 'layers'!"))
      else
        match dmask_file with
        | some f => ([MaskOp.load f], none)
        | none => ([], none)
    | some ls =>
      match ls with
      | [] => ([], some (.valueError "'layers' can't be empty!"))
      | [l] => ([MaskOp.set l channels], none)
      | _ :: _ :: _ =>
        match channels with
        | none => (ls.map (fun l => MaskOp.set l none), none)
        | some chs =>
          if ls.length = chs.length then
            ((ls.zip chs).map (fun p => MaskOp.set p.1 (some [p.2])), none)
          else
            ([], some (.valueError
              "'channels' must be None or a list with same length as 'layers' when the length of 'layers' is larger than 1."))

/-- `gen_dmask` as a fallible function returning the mask (identified with the
trace of mutations that populated it). -/
def gen_dmask (layers : Option (List String)) (channels : Option (List ℤ))
    (dmask_file : Option String) : Except PyError (List MaskOp) :=
  match gen_dmask_run layers channels dmask_file with
  | (_, some e) => .error e
  | (ops, none) => .ok ops

/-- The list of integers starting at `start`, up to `stop` inclusive,
stepping by `step`: the spec's description of `frame_nums` (used only to be
compared with the embedding's `range`). -/
def upToList (stop step : ℕ) (start : ℕ) : List ℕ :=
  if start ≤ stop ∧ 0 < step then start :: upToList stop step (start + step)
  else []
termination_by stop + 1 - start
decreasing_by omega

/-! ### Structural lemmas about the embedding -/

theorem frameCount_pos {n : ℤ} {iv : ℕ} (hiv : 0 < iv) (hn : 1 ≤ n) :
    1 ≤ frameCount n iv := by
  have h1 : iv ≤ n.toNat + iv - 1 := by omega
  exact (Nat.one_le_div_iff hiv).2 h1

theorem frameCount_of_lt_one {n : ℤ} {iv : ℕ} (hiv : 0 < iv) (hn : n < 1) :
    frameCount n iv = 0 := by
  have h0 : n.toNat = 0 := by omega
  unfold frameCount
  rw [h0]
  exact Nat.div_eq_of_lt (by omega)

theorem accumOnsets_length (c : ℚ) (l : List ℚ) :
    (accumOnsets c l).length = l.length := by
  induction l generalizing c with
  | nil => rfl
  | cons d ds ih => simp [accumOnsets, ih]

theorem adjustEnds_length (bv av : ℚ) (l : List ℚ) :
    (adjustEnds bv av l).length = l.length := by
  simp [adjustEnds]

theorem replicate_set_last (k : ℕ) (d x : ℚ) :
    (List.replicate (k + 1) d).set k x = List.replicate k d ++ [x] := by
  induction k with
  | zero => rfl
  | succ k ih =>
    rw [List.replicate_succ d (k + 1), List.set_cons_succ, ih,
      List.replicate_succ, List.cons_append]

theorem getD_replicate {n i : ℕ} (h : i < n) (a : ℚ) :
    (List.replicate n a).getD i 0 = a := by
  rw [List.getD_eq_getElem?_getD, List.getElem?_replicate, if_pos h]
  rfl

theorem adjustEnds_one (d bv av : ℚ) : adjustEnds bv av [d] = [d + bv + av] := rfl

theorem adjustEnds_replicate_two_add (k : ℕ) (d bv av : ℚ) :
    adjustEnds bv av (List.replicate (k + 2) d) =
      (d + bv) :: (List.replicate k d ++ [d + av]) := by
  unfold adjustEnds
  rw [List.replicate_succ d (k + 1)]
  simp only [List.set_cons_zero, List.getD_cons_zero, List.length_set,
    List.length_cons, List.length_replicate, Nat.add_sub_cancel,
    List.set_cons_succ, List.getD_cons_succ]
  rw [getD_replicate (Nat.lt_succ_self k), replicate_set_last]

/-- Inversion for successful calls: a schedule is only returned when the
interval is a positive `int`, `fps` is nonzero and at least one frame is
sampled, and then the three returned lists have the shape built by the code. -/
theorem gft_ok_inv {fps : ℚ} {n_frame : ℤ} {oo bv av : ℚ} {i : PyNum}
    {t : List ℕ × List ℚ × List ℚ}
    (h : get_frame_time_info fps n_frame oo i bv av = .ok t) :
    ∃ z : ℤ, i = .int z ∧ 0 < z ∧ fps ≠ 0 ∧ 1 ≤ frameCount n_frame z.toNat ∧
      t = (List.range' 1 (frameCount n_frame z.toNat) z.toNat,
           oo :: accumOnsets oo
             (adjustEnds bv av
               (List.replicate (frameCount n_frame z.toNat) (1 / fps * z.toNat))).dropLast,
           adjustEnds bv av
             (List.replicate (frameCount n_frame z.toNat) (1 / fps * z.toNat))) := by
  cases i with
  | float q => simp [get_frame_time_info] at h
  | int z =>
    by_cases hz : 0 < z
    · by_cases hfps : fps = 0
      · simp [get_frame_time_info, hz, hfps] at h
      · by_cases hc : frameCount n_frame z.toNat = 0
        · simp [get_frame_time_info, hz, hfps, hc] at h
        · refine ⟨z, rfl, hz, hfps, by omega, ?_⟩
          simp [get_frame_time_info, hz, hfps, List.isEmpty_iff, hc] at h
          rw [← one_div fps] at h
          exact h.symm
    · simp [get_frame_time_info, hz] at h

/-- A successful run, explicitly: positive integer interval, nonzero frame
rate and a positive frame count give the schedule of the code. -/
theorem gft_eq_ok {z : ℤ} {fps : ℚ} {n_frame : ℤ} (hz : 0 < z) (hfps : fps ≠ 0)
    (hn : 1 ≤ n_frame) (oo bv av : ℚ) :
    get_frame_time_info fps n_frame oo (.int z) bv av =
      .ok (List.range' 1 (frameCount n_frame z.toNat) z.toNat,
           oo :: accumOnsets oo
             (adjustEnds bv av
               (List.replicate (frameCount n_frame z.toNat) (1 / fps * z.toNat))).dropLast,
           adjustEnds bv av
             (List.replicate (frameCount n_frame z.toNat) (1 / fps * z.toNat))) := by
  have hc0 : frameCount n_frame z.toNat ≠ 0 := by
    have := @frameCount_pos n_frame z.toNat (by omega) hn
    omega
  simp [get_frame_time_info, hz, hfps, List.isEmpty_iff, hc0]

/-- A zero frame rate makes the duration computation divide by zero. -/
theorem gft_zero_fps {z : ℤ} (hz : 0 < z) (n_frame : ℤ) (oo bv av : ℚ) :
    get_frame_time_info 0 n_frame oo (.int z) bv av = .error .zeroDivisionError := by
  simp [get_frame_time_info, hz]

/-- Fewer than one frame makes the first duration adjustment index into an
empty list. -/
theorem gft_no_frames {z : ℤ} (hz : 0 < z) {fps : ℚ} (hfps : fps ≠ 0)
    {n_frame : ℤ} (hn : n_frame < 1) (oo bv av : ℚ) :
    get_frame_time_info fps n_frame oo (.int z) bv av = .error .indexError := by
  have hc : frameCount n_frame z.toNat = 0 := frameCount_of_lt_one (by omega) hn
  simp [get_frame_time_info, hz, hfps, hc]

theorem accumOnsets_getD_succ (c : ℚ) (l : List ℚ) :
    ∀ j, j < l.length →
      (c :: accumOnsets c l).getD (j + 1) 0 =
        (c :: accumOnsets c l).getD j 0 + l.getD j 0 := by
  induction l generalizing c with
  | nil => intro j hj; simp at hj
  | cons d ds ih =>
    intro j hj
    cases j with
    | zero => simp [accumOnsets]
    | succ k =>
      have hk : k < ds.length := by simpa using hj
      have := ih (c + d) k hk
      simpa [accumOnsets] using this

theorem getD_dropLast {l : List ℚ} {j : ℕ} (h : j < l.length - 1) :
    l.dropLast.getD j 0 = l.getD j 0 := by
  have h1 : j < l.dropLast.length := by
    rw [List.length_dropLast]; omega
  have h2 : j < l.length := by omega
  rw [List.getD_eq_getElem _ _ h1, List.getD_eq_getElem _ _ h2,
    List.getElem_dropLast]

theorem getD_replicate_append_last (k : ℕ) (d x : ℚ) :
    (List.replicate k d ++ [x]).getD k 0 = x := by
  induction k with
  | zero => rfl
  | succ k ih => simp [List.replicate_succ, ih]

theorem getD_replicate_append {k j : ℕ} (h : j < k) (d x : ℚ) :
    (List.replicate k d ++ [x]).getD j 0 = d := by
  induction k generalizing j with
  | zero => omega
  | succ k ih =>
    cases j with
    | zero => simp [List.replicate_succ]
    | succ j =>
      have hj : j < k := by omega
      simpa [List.replicate_succ] using ih hj

/-! ### The claims -/

/-- C1: for every call to `get_frame_time_info` that returns a schedule, the
first onset is `original_onset` and every following onset is the previous
onset plus the previous duration (left-to-right cumulative sum). -/
theorem C1_cumulative_onsets {fps : ℚ} {n_frame : ℤ} {oo bv av : ℚ} {i : PyNum}
    {fn : List ℕ} {os ds : List ℚ}
    (h : get_frame_time_info fps n_frame oo i bv av = .ok (fn, os, ds)) :
    os.getD 0 0 = oo ∧
    ∀ j, j + 1 < os.length → os.getD (j + 1) 0 = os.getD j 0 + ds.getD j 0 := by
  obtain ⟨z, hi, hz, hfps, hcnt, ht⟩ := gft_ok_inv h
  simp only [Prod.mk.injEq] at ht
  obtain ⟨rfl, rfl, rfl⟩ := ht
  set D := adjustEnds bv av
    (List.replicate (frameCount n_frame z.toNat) (1 / fps * z.toNat)) with hD
  refine ⟨rfl, ?_⟩
  intro j hj
  have hDlen : D.length = frameCount n_frame z.toNat := by
    rw [hD, adjustEnds_length, List.length_replicate]
  have hlen : D.dropLast.length = D.length - 1 := List.length_dropLast _
  have hos : (oo :: accumOnsets oo D.dropLast).length = D.dropLast.length + 1 := by
    simp [accumOnsets_length]
  have hjlt : j < D.dropLast.length := by omega
  rw [accumOnsets_getD_succ _ _ j hjlt, getD_dropLast (by omega)]

/-- C4: every successful call returns three lists of equal length. -/
theorem C4_schedule_lengths {fps : ℚ} {n_frame : ℤ} {oo bv av : ℚ} {i : PyNum}
    {fn : List ℕ} {os ds : List ℚ}
    (h : get_frame_time_info fps n_frame oo i bv av = .ok (fn, os, ds)) :
    fn.length = os.length ∧ os.length = ds.length := by
  obtain ⟨z, hi, hz, hfps, hcnt, ht⟩ := gft_ok_inv h
  simp only [Prod.mk.injEq] at ht
  obtain ⟨rfl, rfl, rfl⟩ := ht
  set D := adjustEnds bv av
    (List.replicate (frameCount n_frame z.toNat) (1 / fps * z.toNat)) with hD
  have hDlen : D.length = frameCount n_frame z.toNat := by
    rw [hD, adjustEnds_length, List.length_replicate]
  have hos : (oo :: accumOnsets oo D.dropLast).length = D.dropLast.length + 1 := by
    simp [accumOnsets_length]
  have hlen : D.dropLast.length = D.length - 1 := List.length_dropLast _
  have hfn : (List.range' 1 (frameCount n_frame z.toNat) z.toNat).length =
      frameCount n_frame z.toNat := List.length_range' ..
  constructor
  · rw [hfn, hos]
    omega
  · rw [hos]
    omega

theorem C1_witness :
    ([0, 1] : List ℚ).getD 0 0 = 0 ∧
    ∀ j, j + 1 < ([0, 1] : List ℚ).length →
      ([0, 1] : List ℚ).getD (j + 1) 0 =
        ([0, 1] : List ℚ).getD j 0 + ([1, 1] : List ℚ).getD j 0 :=
  @C1_cumulative_onsets 1 2 0 0 0 (.int 1) [1, 2] [0, 1] [1, 1]
    (by rw [get_frame_time_info]
        norm_num [frameCount]
        norm_num [List.range', adjustEnds, accumOnsets, List.replicate])

theorem C4_witness :
    ([1, 2] : List ℕ).length = ([0, 1] : List ℚ).length ∧
    ([0, 1] : List ℚ).length = ([1, 1] : List ℚ).length :=
  @C4_schedule_lengths 1 2 0 0 0 (.int 1) [1, 2] [0, 1] [1, 1]
    (by rw [get_frame_time_info]
        norm_num [frameCount]
        norm_num [List.range', adjustEnds, accumOnsets, List.replicate])

theorem toNat_cast_q {z : ℤ} (hz : 0 < z) : ((z.toNat : ℚ)) = (z : ℚ) := by
  rw [← Int.cast_natCast, Int.toNat_of_nonneg hz.le]

theorem adjustEnds_getD (c : ℕ) (d bv av : ℚ) :
    (c = 1 → adjustEnds bv av (List.replicate c d) = [d + bv + av]) ∧
    (2 ≤ c →
      (adjustEnds bv av (List.replicate c d)).getD 0 0 = d + bv ∧
      (adjustEnds bv av (List.replicate c d)).getD (c - 1) 0 = d + av ∧
      ∀ j, 0 < j → j < c - 1 →
        (adjustEnds bv av (List.replicate c d)).getD j 0 = d) := by
  constructor
  · rintro rfl
    rw [List.replicate_one, adjustEnds_one]
  · intro h2
    obtain ⟨k, rfl⟩ : ∃ k, c = k + 2 := ⟨c - 2, by omega⟩
    rw [adjustEnds_replicate_two_add]
    refine ⟨List.getD_cons_zero, ?_, ?_⟩
    · show ((d + bv) :: (List.replicate k d ++ [d + av])).getD (k + 2 - 1) 0 = d + av
      have he : k + 2 - 1 = k + 1 := rfl
      rw [he, List.getD_cons_succ, getD_replicate_append_last]
    · intro j hj0 hjk
      obtain ⟨j', rfl⟩ : ∃ j', j = j' + 1 := ⟨j - 1, by omega⟩
      rw [List.getD_cons_succ, getD_replicate_append (by omega)]

/-- C2: in every returned schedule the durations all equal the base value
`interval / fps`, except that the first is larger by `before_vid` and the
last larger by `after_vid`; with exactly one sampled frame the single
duration is larger by `before_vid + after_vid`. -/
theorem C2_boundary_durations {fps : ℚ} {n_frame z : ℤ} {oo bv av : ℚ}
    {fn : List ℕ} {os ds : List ℚ}
    (h : get_frame_time_info fps n_frame oo (.int z) bv av = .ok (fn, os, ds)) :
    (ds.length = 1 → ds.getD 0 0 - (z : ℚ) / fps = bv + av) ∧
    (2 ≤ ds.length →
      ds.getD 0 0 - (z : ℚ) / fps = bv ∧
      ds.getD (ds.length - 1) 0 - (z : ℚ) / fps = av ∧
      ∀ j, 0 < j → j < ds.length - 1 → ds.getD j 0 = (z : ℚ) / fps) := by
  obtain ⟨z', hi, hz, hfps, hcnt, ht⟩ := gft_ok_inv h
  injection hi with hzz
  subst hzz
  simp only [Prod.mk.injEq] at ht
  obtain ⟨rfl, rfl, rfl⟩ := ht
  have hbase : 1 / fps * ((z.toNat : ℚ)) = (z : ℚ) / fps := by
    rw [toNat_cast_q hz, one_div_mul_eq_div]
  rw [hbase]
  have hlen : (adjustEnds bv av
      (List.replicate (frameCount n_frame z.toNat) ((z : ℚ) / fps))).length =
      frameCount n_frame z.toNat := by
    rw [adjustEnds_length, List.length_replicate]
  rw [hlen]
  have hm := adjustEnds_getD (frameCount n_frame z.toNat) ((z : ℚ) / fps) bv av
  constructor
  · intro h1
    rw [hm.1 h1]
    simp only [List.getD_cons_zero]
    ring
  · intro h2
    obtain ⟨g1, g2, g3⟩ := hm.2 h2
    exact ⟨by rw [g1]; ring, by rw [g2]; ring, g3⟩

theorem C2_witness :
    (([11/2, 1/2, 15/2] : List ℚ).length = 1 →
      ([11/2, 1/2, 15/2] : List ℚ).getD 0 0 - ((1 : ℤ) : ℚ) / 2 = 5 + 7) ∧
    (2 ≤ ([11/2, 1/2, 15/2] : List ℚ).length →
      ([11/2, 1/2, 15/2] : List ℚ).getD 0 0 - ((1 : ℤ) : ℚ) / 2 = 5 ∧
      ([11/2, 1/2, 15/2] : List ℚ).getD
          (([11/2, 1/2, 15/2] : List ℚ).length - 1) 0 - ((1 : ℤ) : ℚ) / 2 = 7 ∧
      ∀ j, 0 < j → j < ([11/2, 1/2, 15/2] : List ℚ).length - 1 →
        ([11/2, 1/2, 15/2] : List ℚ).getD j 0 = ((1 : ℤ) : ℚ) / 2) :=
  @C2_boundary_durations 2 3 1 0 5 7 [1, 2, 3] [0, 11/2, 6] [11/2, 1/2, 15/2]
    (by rw [get_frame_time_info]
        norm_num [frameCount]
        norm_num [List.range', adjustEnds, accumOnsets, List.replicate])

theorem accumOnsets_chain (l : List ℚ) :
    ∀ c : ℚ, (∀ d ∈ l, 0 < d) → List.Chain' (· < ·) (c :: accumOnsets c l) := by
  induction l with
  | nil =>
    intro c h
    simp [accumOnsets]
  | cons d ds ih =>
    intro c h
    have hd : 0 < d := h d (by simp)
    have hrest := ih (c + d) (fun x hx => h x (by simp [hx]))
    rw [accumOnsets]
    exact List.chain'_cons.2 ⟨by linarith, hrest⟩

theorem adjustEnds_replicate_pos {d bv av : ℚ} (hd : 0 < d) (hbv : 0 ≤ bv)
    (hav : 0 ≤ av) {c : ℕ} (hc : 1 ≤ c) :
    ∀ x ∈ adjustEnds bv av (List.replicate c d), 0 < x := by
  intro x hx
  rcases Nat.lt_or_ge c 2 with h1 | h2
  · have hc1 : c = 1 := by omega
    subst hc1
    rw [List.replicate_one, adjustEnds_one] at hx
    simp only [List.mem_singleton] at hx
    subst hx
    linarith
  · obtain ⟨k, rfl⟩ : ∃ k, c = k + 2 := ⟨c - 2, by omega⟩
    rw [adjustEnds_replicate_two_add] at hx
    simp only [List.mem_cons, List.mem_append, List.mem_replicate,
      List.mem_singleton, List.not_mem_nil, or_false] at hx
    rcases hx with h | ⟨_, h⟩ | h <;> subst h <;> linarith

/-- C3 as stated is false on the code: `before_vid` and `after_vid` are not
validated, so the call with `before_vid = -2` returns the schedule
`([1, 2], [0, -1], [-1, 1])`, whose durations are not all positive and whose
onsets are not strictly increasing. -/
theorem C3_counterexample :
    get_frame_time_info 1 2 0 (.int 1) (-2) 0 = .ok ([1, 2], [0, -1], [-1, 1]) ∧
    ¬ (∀ x ∈ ([-1, 1] : List ℚ), 0 < x) ∧
    ¬ List.Pairwise (· < ·) ([0, -1] : List ℚ) := by
  refine ⟨?_, ?_, ?_⟩
  · rw [get_frame_time_info]
    norm_num [frameCount]
    norm_num [List.range', adjustEnds, accumOnsets, List.replicate]
  · intro hall
    have h1 := hall (-1) (by norm_num)
    linarith
  · intro hp
    simp only [List.pairwise_cons, List.mem_singleton, forall_eq,
      List.Pairwise.nil, and_true] at hp
    linarith [hp.1]

/-- C3 (amended): for every call that returns a schedule, the frame numbers
are positive and strictly increasing with step `interval`; and provided
`fps` is positive and `before_vid`, `after_vid` are nonnegative (the intended
usage; the code does not validate them, whence the counterexample), the
onsets are strictly increasing and every duration is positive. -/
theorem C3_amended_invariants {fps : ℚ} {n_frame z : ℤ} {oo bv av : ℚ}
    {fn : List ℕ} {os ds : List ℚ}
    (h : get_frame_time_info fps n_frame oo (.int z) bv av = .ok (fn, os, ds)) :
    (∀ m ∈ fn, 0 < m) ∧
    (∀ j, j + 1 < fn.length →
      ((fn.getD (j + 1) 0 : ℕ) : ℤ) = ((fn.getD j 0 : ℕ) : ℤ) + z) ∧
    List.Pairwise (· < ·) fn ∧
    (0 < fps → 0 ≤ bv → 0 ≤ av →
      List.Pairwise (· < ·) os ∧ (∀ x ∈ ds, 0 < x)) := by
  obtain ⟨z', hi, hz, hfpsne, hcnt, ht⟩ := gft_ok_inv h
  injection hi with hzz
  subst hzz
  simp only [Prod.mk.injEq] at ht
  obtain ⟨rfl, rfl, rfl⟩ := ht
  have hzk : 0 < z.toNat := by omega
  refine ⟨?_, ?_, ?_, ?_⟩
  · intro m hm
    rw [List.mem_range'] at hm
    obtain ⟨i2, hi2, rfl⟩ := hm
    omega
  · intro j hj
    have hlen : (List.range' 1 (frameCount n_frame z.toNat) z.toNat).length =
        frameCount n_frame z.toNat := List.length_range' ..
    rw [List.getD_eq_getElem _ _ (by omega), List.getD_eq_getElem _ _ (by omega),
      List.getElem_range', List.getElem_range']
    push_cast
    rw [Int.toNat_of_nonneg hz.le]
    ring
  · exact List.pairwise_lt_range' 1 (frameCount n_frame z.toNat) z.toNat hzk
  · intro hfps hbv hav
    have hdpos : (0 : ℚ) < 1 / fps * z.toNat := by
      have hq : (0 : ℚ) < (z.toNat : ℚ) := by exact_mod_cast hzk
      positivity
    have hds := adjustEnds_replicate_pos hdpos hbv hav hcnt
    refine ⟨?_, hds⟩
    have hpos : ∀ x ∈ (adjustEnds bv av (List.replicate (frameCount n_frame z.toNat)
        (1 / fps * z.toNat))).dropLast, 0 < x :=
      fun x hx => hds x (List.dropLast_subset _ hx)
    exact List.chain'_iff_pairwise.1 (accumOnsets_chain _ oo hpos)

theorem C3_witness :
    (∀ m ∈ ([1, 2] : List ℕ), 0 < m) ∧
    (∀ j, j + 1 < ([1, 2] : List ℕ).length →
      ((([1, 2] : List ℕ).getD (j + 1) 0 : ℕ) : ℤ) =
        ((([1, 2] : List ℕ).getD j 0 : ℕ) : ℤ) + 1) ∧
    List.Pairwise (· < ·) ([1, 2] : List ℕ) ∧
    ((0 : ℚ) < 1 → (0 : ℚ) ≤ 0 → (0 : ℚ) ≤ 0 →
      List.Pairwise (· < ·) ([0, 1] : List ℚ) ∧
      (∀ x ∈ ([1, 1] : List ℚ), 0 < x)) :=
  @C3_amended_invariants 1 2 1 0 0 0 [1, 2] [0, 1] [1, 1]
    (by rw [get_frame_time_info]
        norm_num [frameCount]
        norm_num [List.range', adjustEnds, accumOnsets, List.replicate])

/-- C5: a call fails with the interval assertion error exactly when `interval`
is not a positive `int`; the error does not depend on the video metadata
(`fps`, `n_frame` are arbitrary on the failing side), so no partial
computation is observable, and for every positive integer interval the check
passes. -/
theorem C5_interval_validation (fps oo bv av : ℚ) (n_frame : ℤ) (i : PyNum) :
    get_frame_time_info fps n_frame oo i bv av =
        .error (.assertionError "Parameter 'interval' must be a positive integer!") ↔
      intervalOK i = false := by
  cases i with
  | float q => simp [get_frame_time_info, intervalOK]
  | int z =>
    by_cases hz : 0 < z
    · constructor
      · intro hcontra
        exfalso
        by_cases hfps : fps = 0
        · subst hfps
          rw [gft_zero_fps hz] at hcontra
          simp at hcontra
        · by_cases hn : n_frame < 1
          · rw [gft_no_frames hz hfps hn] at hcontra
            simp at hcontra
          · rw [gft_eq_ok hz hfps (by omega)] at hcontra
            simp at hcontra
      · intro hfalse
        exact absurd hfalse (by simp [intervalOK, hz])
    · simp [get_frame_time_info, hz, intervalOK]

theorem upToList_eq_range' (stop step : ℕ) (hstep : 0 < step) :
    ∀ start, upToList stop step start =
      List.range' start (if start ≤ stop then (stop - start) / step + 1 else 0)
        step := by
  have H : ∀ fuel s, stop + 1 - s ≤ fuel → upToList stop step s =
      List.range' s (if s ≤ stop then (stop - s) / step + 1 else 0) step := by
    intro fuel
    induction fuel with
    | zero =>
      intro s hs
      have hgt : ¬ s ≤ stop := by omega
      rw [upToList, if_neg (by tauto), if_neg hgt]
      rfl
    | succ f ihf =>
      intro s hs
      rw [upToList]
      by_cases hle : s ≤ stop
      · rw [if_pos ⟨hle, hstep⟩, ihf (s + step) (by omega), if_pos hle]
        by_cases h2 : s + step ≤ stop
        · rw [if_pos h2]
          have hge : step ≤ stop - s := by omega
          have hrw : (stop - s) / step = (stop - s - step) / step + 1 :=
            Nat.div_eq_sub_div hstep hge
          have hnum : stop - s - step = stop - (s + step) := by omega
          rw [hrw, hnum]
          simp [List.range'_succ]
        · rw [if_neg h2]
          have hz : (stop - s) / step = 0 := Nat.div_eq_of_lt (by omega)
          rw [hz, List.range'_succ]
      · rw [if_neg (by tauto), if_neg hle]
        rfl
  intro start
  exact H (stop + 1 - start) start le_rfl

theorem frameCount_eq_succ_div {m k : ℕ} (hk : 0 < k) (hm : 1 ≤ m) :
    (m + k - 1) / k = (m - 1) / k + 1 := by
  have h1 : m + k - 1 = (m - 1) + k := by omega
  rw [h1, Nat.add_div_right _ hk]

theorem frameCount_eq_ceil {n z : ℤ} (hz : 0 < z) (hn : 1 ≤ n) :
    ((frameCount n z.toNat : ℕ) : ℤ) = ⌈(n : ℚ) / (z : ℚ)⌉ := by
  have hk : 0 < z.toNat := by omega
  have hzq : (0 : ℚ) < (z : ℚ) := by exact_mod_cast hz
  have hdm := Nat.div_add_mod (n.toNat + z.toNat - 1) z.toNat
  have hmod : (n.toNat + z.toNat - 1) % z.toNat < z.toNat := Nat.mod_lt _ hk
  have h1 : n.toNat ≤ z.toNat * frameCount n z.toNat := by
    unfold frameCount
    omega
  have h2 : z.toNat * frameCount n z.toNat ≤ n.toNat + z.toNat - 1 := by
    unfold frameCount
    omega
  have hI1 : n ≤ z * ((frameCount n z.toNat : ℕ) : ℤ) := by
    have hcast := Int.ofNat_le.2 h1
    push_cast at hcast
    rw [Int.toNat_of_nonneg hz.le,
      Int.toNat_of_nonneg (by omega : (0 : ℤ) ≤ n)] at hcast
    exact hcast
  have hI2 : z * ((frameCount n z.toNat : ℕ) : ℤ) ≤ n + z - 1 := by
    have hcast := Int.ofNat_le.2 h2
    push_cast at hcast
    rw [Int.toNat_of_nonneg hz.le] at hcast
    omega
  have hq1 : (n : ℚ) ≤ (z : ℚ) * ((frameCount n z.toNat : ℕ) : ℚ) := by
    exact_mod_cast hI1
  have hq2 : (z : ℚ) * ((frameCount n z.toNat : ℕ) : ℚ) ≤ (n : ℚ) + z - 1 := by
    exact_mod_cast hI2
  symm
  rw [Int.ceil_eq_iff]
  constructor
  · push_cast
    rw [lt_div_iff₀ hzq]
    nlinarith [hq2]
  · push_cast
    rw [div_le_iff₀ hzq]
    nlinarith [hq1]

/-- C9: the returned frame numbers are exactly the integers from 1 up to
`n_frame` inclusive stepping by `interval` (here as the spec-derived
`upToList`; `n_frame.toNat = n_frame` on every successful call), and their
number is the ceiling of `n_frame / interval`. -/
theorem C9_frame_numbers {fps : ℚ} {n_frame z : ℤ} {oo bv av : ℚ}
    {fn : List ℕ} {os ds : List ℚ}
    (h : get_frame_time_info fps n_frame oo (.int z) bv av = .ok (fn, os, ds)) :
    fn = upToList n_frame.toNat z.toNat 1 ∧
    (fn.length : ℤ) = ⌈(n_frame : ℚ) / (z : ℚ)⌉ := by
  obtain ⟨z', hi, hz, hfps, hcnt, ht⟩ := gft_ok_inv h
  injection hi with hzz
  subst hzz
  simp only [Prod.mk.injEq] at ht
  obtain ⟨rfl, rfl, rfl⟩ := ht
  have hk : 0 < z.toNat := by omega
  have hm : 1 ≤ n_frame.toNat := by
    by_contra hcon
    have hc0 : frameCount n_frame z.toNat = 0 := by
      unfold frameCount
      have hz0 : n_frame.toNat = 0 := by omega
      rw [hz0]
      exact Nat.div_eq_of_lt (by omega)
    omega
  have hn1 : 1 ≤ n_frame := by omega
  constructor
  · rw [upToList_eq_range' n_frame.toNat z.toNat hk 1, if_pos (by omega)]
    congr 1
    unfold frameCount
    exact frameCount_eq_succ_div hk hm
  · rw [List.length_range']
    exact frameCount_eq_ceil hz hn1

theorem C9_witness :
    ([1, 3, 5] : List ℕ) = upToList ((5 : ℤ)).toNat ((2 : ℤ)).toNat 1 ∧
    (([1, 3, 5] : List ℕ).length : ℤ) = ⌈((5 : ℤ) : ℚ) / ((2 : ℤ) : ℚ)⌉ :=
  @C9_frame_numbers 1 5 2 0 0 0 [1, 3, 5] [0, 2, 4] [2, 2, 2]
    (by rw [get_frame_time_info]
        norm_num [frameCount, show (5 : ℤ).toNat = 5 from rfl,
          show (2 : ℤ).toNat = 2 from rfl]
        norm_num [List.range', adjustEnds, accumOnsets, List.replicate])

/-- C10 as stated is false in one corner: when `fps = 0` and `n_frame < 1`
hold together, the division-by-zero failure happens first, so the duration
adjustment never indexes into the empty list (the result is
`zeroDivisionError`, not `indexError`). -/
theorem C10_counterexample :
    get_frame_time_info 0 0 0 (.int 1) 0 0 = .error .zeroDivisionError ∧
    PyError.zeroDivisionError ≠ PyError.indexError := by
  constructor
  · exact gft_zero_fps (by norm_num) 0 0 0 0
  · decide

/-- C10 (amended): with a valid interval, the function is total exactly when
the video reports at least one frame and a nonzero frame rate: `fps = 0`
fails with the division by zero; `n_frame < 1` (and `fps ≠ 0`, otherwise the
division fails first) fails with the indexing into the empty duration list;
`n_frame ≥ 1` and `fps ≠ 0` make the indexing and the division safe and the
call returns a schedule. -/
theorem C10_amended_totality (fps oo bv av : ℚ) (n_frame : ℤ) {z : ℤ}
    (hz : 0 < z) :
    (fps = 0 →
      get_frame_time_info fps n_frame oo (.int z) bv av =
        .error .zeroDivisionError) ∧
    (fps ≠ 0 → n_frame < 1 →
      get_frame_time_info fps n_frame oo (.int z) bv av =
        .error .indexError) ∧
    (fps ≠ 0 → 1 ≤ n_frame →
      ∃ t, get_frame_time_info fps n_frame oo (.int z) bv av = .ok t) := by
  refine ⟨?_, ?_, ?_⟩
  · intro hf
    subst hf
    exact gft_zero_fps hz n_frame oo bv av
  · intro hf hn
    exact gft_no_frames hz hf hn oo bv av
  · intro hf hn
    exact ⟨_, gft_eq_ok hz hf hn oo bv av⟩

theorem C10_witness :
    ((1 : ℚ) = 0 →
      get_frame_time_info 1 1 0 (.int 1) 0 0 = .error .zeroDivisionError) ∧
    ((1 : ℚ) ≠ 0 → (1 : ℤ) < 1 →
      get_frame_time_info 1 1 0 (.int 1) 0 0 = .error .indexError) ∧
    ((1 : ℚ) ≠ 0 → 1 ≤ (1 : ℤ) →
      ∃ t, get_frame_time_info 1 1 0 (.int 1) 0 0 = .ok t) :=
  C10_amended_totality 1 0 0 0 1 (by norm_num)

/-- C6: providing both `layers` and the mask file, or neither, fails with the
exclusive-or assertion error; providing only the mask file succeeds and the
only mutation ever applied to the mask is the single `load` call (no `set`
call occurs in file mode). -/
theorem C6_mask_xor (ls : List String) (ch : Option (List ℤ)) (f : String) :
    gen_dmask (some ls) ch (some f) =
      .error (.assertionError
        "Use one and only one of the 'layers' and 'dmask_file'!") ∧
    gen_dmask none ch none =
      .error (.assertionError
        "Use one and only one of the 'layers' and 'dmask_file'!") ∧
    gen_dmask none none (some f) = .ok [MaskOp.load f] := by
  refine ⟨?_, ?_, ?_⟩ <;> simp [gen_dmask, gen_dmask_run]

/-- C7: with more than one layer and a channels list of equal length, each
layer is selected positionally with the single-element channel list built
from its paired channel. -/
theorem C7_paired_channels (ls : List String) (chs : List ℤ)
    (h1 : 1 < ls.length) (h2 : chs.length = ls.length) :
    gen_dmask (some ls) (some chs) none =
      .ok ((ls.zip chs).map (fun p => MaskOp.set p.1 (some [p.2]))) := by
  cases ls with
  | nil => simp at h1
  | cons a t =>
    cases t with
    | nil => simp at h1
    | cons b r =>
      simp [gen_dmask, gen_dmask_run, h2]

theorem C7_witness :
    gen_dmask (some ["conv1", "conv2"]) (some [3, 5]) none =
      .ok [MaskOp.set "conv1" (some [3]), MaskOp.set "conv2" (some [5])] := by
  have h := C7_paired_channels ["conv1", "conv2"] [3, 5] (by norm_num) (by norm_num)
  simpa using h

/-- C8: every precondition violation of `gen_dmask` (channels without layers,
empty layers, or mismatched channels length with several layers) aborts with
an error while the trace of mutations applied to the mask is empty: no
partial mutation is observable. -/
theorem C8_fail_fast :
    (∀ chs f, gen_dmask_run none (some chs) (some f) =
      ([], some (.assertionError "'channels' can't be used without 'layers'!"))) ∧
    (∀ chs, gen_dmask_run none (some chs) none =
      ([], some (.assertionError
        "Use one and only one of the 'layers' and 'dmask_file'!"))) ∧
    (∀ ch, gen_dmask_run (some []) ch none =
      ([], some (.valueError "'layers' can't be empty!"))) ∧
    (∀ ls chs, 1 < ls.length → chs.length ≠ ls.length →
      gen_dmask_run (some ls) (some chs) none =
      ([], some (.valueError
        "'channels' must be None or a list with same length as 'layers' when the length of 'layers' is larger than 1."))) := by
  refine ⟨fun chs f => by simp [gen_dmask_run],
    fun chs => by simp [gen_dmask_run],
    fun ch => by simp [gen_dmask_run], ?_⟩
  intro ls chs h1 h2
  cases ls with
  | nil => simp at h1
  | cons a t =>
    cases t with
    | nil => simp at h1
    | cons b r =>
      simp only [List.length_cons] at h2
      simp [gen_dmask_run]
      omega

theorem C8_witness :
    gen_dmask_run (some ["a", "b", "c"]) (some [1, 2]) none =
      ([], some (.valueError
        "'channels' must be None or a list with same length as 'layers' when the length of 'layers' is larger than 1.")) :=
  C8_fail_fast.2.2.2 ["a", "b", "c"] [1, 2] (by decide) (by decide)
